import Mathlib

/-!
Shallow embedding of `src/totem-ydl-parser.py`.

The script is a thin CLI adapter around the external extraction library
`yt_dlp`.  The values the script reads out of the extraction dictionaries are
either JSON strings or JSON integers; an absent key (or a JSON `null`, which
`dict.get` renders identically as Python `None`) is modelled as `Option.none`.
The external library itself (the registered extractor handlers, the outcome of
`extract_info`, and the text that `json.dumps` would produce for the debug
dump) is supplied as an environment value; `sanitize_info` is the external
library's JSON-safe copy and is modelled as the identity on the already
JSON-shaped result.  Printing and `sys.exit` are modelled by returning the
accumulated standard-output text together with the process exit status.
-/

deriving instance DecidableEq for Except

/-- A Python value stored under one of the dictionary keys the script reads:
either a string or an integer. -/
inductive PyVal where
  | vstr : String → PyVal
  | vint : Int → PyVal
deriving DecidableEq

/-- One entry of the `formats` list (a `FormatVariant`).  Each field is the
value found under the corresponding key, `none` when the key is absent. -/
structure FormatElem where
  acodec : Option PyVal
  vcodec : Option PyVal
  width : Option PyVal
  url : Option PyVal
deriving DecidableEq

/-- The dictionary returned by `extract_info` / `sanitize_info`, restricted to
the keys the script reads.  `formats = none` models a dictionary that lacks
the `formats` key (for example a playlist wrapper). -/
structure YdlResult where
  formats : Option (List FormatElem)
  title : Option PyVal
  id : Option PyVal
  webpage_url : Option PyVal
  duration_string : Option PyVal
  thumbnail : Option PyVal
deriving DecidableEq

/-- Python `int(v)`: the identity on an integer, string-to-integer conversion
on a string (raising `ValueError` when the string is not an integer
literal). -/
def pyInt : PyVal → Except String Int
  | PyVal.vint n => Except.ok n
  | PyVal.vstr s =>
    match s.toInt? with
    | some n => Except.ok n
    | none => Except.error "ValueError"

/-- Python `n > v` for an integer `n` against the raw stored running maximum
`v`: an integer comparison when `v` is an integer, a `TypeError` when `v` is a
string (Python 3 refuses to order an `int` against a `str`). -/
def pyGt (n : Int) : PyVal → Except String Bool
  | PyVal.vint m => Except.ok (decide (m < n))
  | PyVal.vstr _ => Except.error "TypeError"

/-- Line 102 of the source: `element.get('acodec') != 'none' and
element.get('vcodec') != 'none'`.  Note that an *absent* key gives Python
`None`, which is `!= 'none'`, so it passes this test. -/
def qual (element : FormatElem) : Bool :=
  decide (element.acodec ≠ some (PyVal.vstr "none")) &&
  decide (element.vcodec ≠ some (PyVal.vstr "none"))

/-- The loop of `parse_results` (source lines 101-105), with the mutable
state `(width, url)` passed explicitly.  `width` starts as the Python integer
`0` but line 104 stores the *raw* value of the `width` key, so the running
maximum is a `PyVal`.  Line 103 first tests `element.get('width') is not
None`, then converts with `int(...)` (which can raise), then compares against
the running maximum (which can raise a `TypeError` when the stored maximum was
a string). -/
def parse_results_loop : List FormatElem → PyVal → Option PyVal →
    Except String (Option PyVal)
  | [], _, url => Except.ok url
  | element :: rest, width, url =>
    if qual element then
      match element.width with
      | none => parse_results_loop rest width url
      | some w =>
        match pyInt w with
        | Except.error e => Except.error e
        | Except.ok n =>
          match pyGt n width with
          | Except.error e => Except.error e
          | Except.ok b =>
            if b then parse_results_loop rest w element.url
            else parse_results_loop rest width url
    else parse_results_loop rest width url

/-- `parse_results` (source lines 87-107).  `result['formats']` raises
`KeyError` when the key is absent; otherwise the loop runs from the initial
state `width = 0`, `url = None`.  The debug-mode `json.dumps` on lines 98-99
only produces output (it is modelled at the call site in `extract_url`) and
does not affect the returned value. -/
def parse_results (result : YdlResult) : Except String (Option PyVal) :=
  match result.formats with
  | none => Except.error "KeyError: formats"
  | some formats => parse_results_loop formats (PyVal.vint 0) none

/-- How a Python f-string renders a value read back with `.get`: the string
itself, the decimal rendering of an integer, and the literal `None` for an
absent key. -/
def pyShow : Option PyVal → String
  | none => "None"
  | some (PyVal.vstr s) => s
  | some (PyVal.vint n) => toString n

/-- One registered extractor handler of the external library (`ydl._ies`): its
registry name, its `suitable(url)` predicate and its `working()` flag. -/
structure Extractor where
  name : String
  suitable : String → Bool
  working : Bool

/-- `url_is_valid` (source lines 109-119): some handler other than `Generic`
is suitable for the url and working. -/
def url_is_valid (ies : List Extractor) (url : String) : Bool :=
  ies.any fun ie =>
    decide (ie.name ≠ "Generic") && ie.suitable url && ie.working

/-- The external library, as consumed by one invocation of the script: the
registered handlers, the outcome of `extract_info` for the requested url
(`Except.error` models a raised exception, carrying its message), and the text
`json.dumps(result, indent=4)` would print under debug (abstract, since only
debug mode shows it). -/
structure YdlEnv where
  ies : List Extractor
  extract_info : Except String YdlResult
  dumpText : String

/-- The sentinel token printed on every failure path that produces output. -/
def errorToken : String := "TOTEM_PL_PARSER_RESULT_ERROR"

/-- `extract_url` (source lines 121-176) together with the process exit
status: `(standard-output text, exit code)`.  `sys.exit(1)` gives exit code 1;
falling off the end of the script gives exit code 0.  `print(x)` appends a
newline, `print(x, end='')` does not.  The `except` clause catches both an
exception raised by `extract_info` and one raised inside `parse_results`
(whose debug dump, when enabled, was already printed before the `KeyError`
could occur). -/
def extract_url (env : YdlEnv) (url : String) (check : Bool) (debug : Bool) :
    String × Nat :=
  let is_valid := url_is_valid env.ies url
  if check then
    ((if is_valid then "TRUE" else "FALSE"), 1)
  else if is_valid = false then
    (errorToken, 1)
  else
    match env.extract_info with
    | Except.error e => ((if debug then e ++ "\n" else ""), 1)
    | Except.ok result =>
      let info_dict := result
      let dumpOut := if debug then env.dumpText ++ "\n" else ""
      match parse_results info_dict with
      | Except.error e => (dumpOut ++ (if debug then e ++ "\n" else ""), 1)
      | Except.ok u =>
        match u with
        | some v =>
          (dumpOut
            ++ "title=" ++ pyShow result.title ++ "\n"
            ++ "id=" ++ pyShow result.id ++ "\n"
            ++ "moreinfos=" ++ pyShow result.webpage_url ++ "\n"
            ++ "duration=" ++ pyShow result.duration_string ++ "\n"
            ++ "url=" ++ pyShow (some v) ++ "\n"
            ++ (if result.thumbnail ≠ none then
                  "image-url=" ++ pyShow result.thumbnail ++ "\n"
                else ""), 0)
        | none => (dumpOut ++ errorToken, 0)

/-- A format entry whose `width` value, when present, is an integer (the shape
the spec's data model prescribes: `width` is integer, optional). -/
def intWidth (e : FormatElem) : Bool :=
  match e.width with
  | some (PyVal.vstr _) => false
  | _ => true

/-- Pure mirror of `parse_results_loop` on integer-widthed inputs: the running
maximum is an integer and no step can raise.  An element updates the state
exactly when it passes the codec test, carries an integer width, and that
width strictly exceeds the running maximum. -/
def selectGo : List FormatElem → Int → Option PyVal → Int × Option PyVal
  | [], w, u => (w, u)
  | element :: rest, w, u =>
    match element.width with
    | some (PyVal.vint n) =>
      if qual element = true ∧ w < n then selectGo rest n element.url
      else selectGo rest w u
    | _ => selectGo rest w u

/-- Convenience constructor for a format entry whose present fields are a
string codec pair, an integer width and a string url. -/
def mkFmt (a v : Option String) (w : Option Int) (u : Option String) :
    FormatElem :=
  ⟨a.map PyVal.vstr, v.map PyVal.vstr, w.map PyVal.vint, u.map PyVal.vstr⟩

/-- An extraction result carrying only a `formats` list. -/
def mkRes (formats : List FormatElem) : YdlResult :=
  ⟨some formats, none, none, none, none, none⟩

/-- A site-specific handler that accepts every url and is working. -/
def siteExtr : Extractor := ⟨"Site", fun _ => true, true⟩

/-- Two fully qualifying candidates sharing the maximum width 720, urls `X`
then `Y` (the spec's tie-break example). -/
def tieFmts : List FormatElem :=
  [mkFmt (some "mp4a") (some "avc1") (some 720) (some "X"),
   mkFmt (some "mp4a") (some "avc1") (some 720) (some "Y")]

/-- A single qualifying candidate whose width is 0. -/
def zeroWidthFmts : List FormatElem :=
  [mkFmt (some "mp4a") (some "avc1") (some 0) (some "A")]

/-- A single entry with *no* `acodec` and *no* `vcodec` key at all. -/
def noCodecFmts : List FormatElem :=
  [⟨none, none, some (PyVal.vint 5), some (PyVal.vstr "U")⟩]

/-- A fully qualifying candidate followed by a wider codec-passing entry that
lacks a `url` key. -/
def shadowFmts : List FormatElem :=
  [mkFmt (some "mp4a") (some "avc1") (some 5) (some "A"),
   mkFmt (some "mp4a") (some "avc1") (some 10) none]

/-- Environment in which extraction raises. -/
def raiseEnv : YdlEnv := ⟨[siteExtr], Except.error "network error", ""⟩

/-- Environment in which extraction succeeds with an empty format list. -/
def emptyFmtsEnv : YdlEnv := ⟨[siteExtr], Except.ok (mkRes []), ""⟩

/-- A successful extraction result with one qualifying format, no
`duration_string` and no `thumbnail`. -/
def noDurRes : YdlResult :=
  ⟨some [mkFmt (some "mp4a") (some "avc1") (some 720) (some "U")],
   some (PyVal.vstr "T"), some (PyVal.vstr "I"), some (PyVal.vstr "W"),
   none, none⟩

/-- Environment delivering `noDurRes`. -/
def noDurEnv : YdlEnv := ⟨[siteExtr], Except.ok noDurRes, ""⟩

/-- A successful extraction result with one qualifying format, a duration
string and a thumbnail. -/
def fullRes : YdlResult :=
  ⟨some [mkFmt (some "mp4a") (some "avc1") (some 640) (some "V")],
   some (PyVal.vstr "T2"), some (PyVal.vstr "I2"), some (PyVal.vstr "W2"),
   some (PyVal.vstr "3:25"), some (PyVal.vstr "TH")⟩

/-- Environment delivering `fullRes`. -/
def fullEnv : YdlEnv := ⟨[siteExtr], Except.ok fullRes, ""⟩

/-- A playlist-style wrapper dictionary with no `formats` key. -/
def noFormatsRes : YdlResult := ⟨none, none, none, none, none, none⟩

/-- The element matched when looking for the first candidate that passes the
codec test and carries integer width exactly `M`. -/
def isBest (M : Int) (x : FormatElem) : Bool :=
  qual x && decide (x.width = some (PyVal.vint M))


/-! Loop invariants of the selection rule. -/

/-- The running maximum never decreases along the loop. -/
theorem selectGo_fst_ge (fmts : List FormatElem) (w : Int) (u : Option PyVal) :
    w ≤ (selectGo fmts w u).1 := by
  induction fmts generalizing w u with
  | nil => exact le_refl w
  | cons e rest ih =>
    rcases hw : e.width with - | v
    · simpa only [selectGo, hw] using ih w u
    · rcases v with s | n
      · simpa only [selectGo, hw] using ih w u
      · simp only [selectGo, hw]
        by_cases hc : qual e = true ∧ w < n
        · rw [if_pos hc]
          exact le_of_lt (lt_of_lt_of_le hc.2 (ih n e.url))
        · rw [if_neg hc]
          exact ih w u

/-- If the running maximum did not move, neither did the url. -/
theorem selectGo_stable (fmts : List FormatElem) (w : Int) (u : Option PyVal)
    (h : (selectGo fmts w u).1 = w) : selectGo fmts w u = (w, u) := by
  induction fmts generalizing w u with
  | nil => rfl
  | cons e rest ih =>
    rcases hw : e.width with - | v
    · simp only [selectGo, hw] at h ⊢
      exact ih w u h
    · rcases v with s | n
      · simp only [selectGo, hw] at h ⊢
        exact ih w u h
      · simp only [selectGo, hw] at h ⊢
        by_cases hc : qual e = true ∧ w < n
        · rw [if_pos hc] at h
          have hge := selectGo_fst_ge rest n e.url
          have hcon : w < n := hc.2
          exact absurd h (by omega)
        · rw [if_neg hc] at h ⊢
          exact ih w u h

/-- Every integer width of a qualifying element bounds the final running
maximum from below. -/
theorem selectGo_fst_ge_elem (fmts : List FormatElem) (w : Int)
    (u : Option PyVal) (e : FormatElem) (n : Int) (hmem : e ∈ fmts)
    (hq : qual e = true) (hw : e.width = some (PyVal.vint n)) :
    n ≤ (selectGo fmts w u).1 := by
  induction fmts generalizing w u with
  | nil => cases hmem
  | cons x rest ih =>
    rcases List.mem_cons.mp hmem with rfl | hmem2
    · simp only [selectGo, hw]
      by_cases hlt : w < n
      · rw [if_pos ⟨hq, hlt⟩]
        exact selectGo_fst_ge rest n e.url
      · rw [if_neg (fun hcon => hlt hcon.2)]
        exact le_trans (le_of_not_lt hlt) (selectGo_fst_ge rest w u)
    · rcases hx : x.width with - | v
      · simp only [selectGo, hx]
        exact ih w u hmem2
      · rcases v with s | m
        · simp only [selectGo, hx]
          exact ih w u hmem2
        · simp only [selectGo, hx]
          by_cases hc : qual x = true ∧ w < m
          · rw [if_pos hc]
            exact ih m x.url hmem2
          · rw [if_neg hc]
            exact ih w u hmem2

/-- Either the loop never updates its state, or the final state is the state
written by some qualifying element: its integer width is the final running
maximum (strictly above the initial one) and its url is the final url. -/
theorem selectGo_cases (fmts : List FormatElem) (w : Int) (u : Option PyVal) :
    selectGo fmts w u = (w, u) ∨
      ∃ e ∈ fmts, qual e = true ∧
        e.width = some (PyVal.vint (selectGo fmts w u).1) ∧
        (selectGo fmts w u).2 = e.url ∧ w < (selectGo fmts w u).1 := by
  induction fmts generalizing w u with
  | nil => exact Or.inl rfl
  | cons e rest ih =>
    rcases hw : e.width with - | v
    · simp only [selectGo, hw]
      rcases ih w u with h | ⟨x, hx1, hx2, hx3, hx4, hx5⟩
      · exact Or.inl h
      · exact Or.inr ⟨x, List.mem_cons_of_mem e hx1, hx2, hx3, hx4, hx5⟩
    · rcases v with s | n
      · simp only [selectGo, hw]
        rcases ih w u with h | ⟨x, hx1, hx2, hx3, hx4, hx5⟩
        · exact Or.inl h
        · exact Or.inr ⟨x, List.mem_cons_of_mem e hx1, hx2, hx3, hx4, hx5⟩
      · simp only [selectGo, hw]
        by_cases hc : qual e = true ∧ w < n
        · rw [if_pos hc]
          rcases ih n e.url with h | ⟨x, hx1, hx2, hx3, hx4, hx5⟩
          · refine Or.inr ⟨e, List.mem_cons_self e rest, hc.1, ?_, ?_, ?_⟩
            · rw [h]
              exact hw
            · rw [h]
            · rw [h]
              exact hc.2
          · exact Or.inr ⟨x, List.mem_cons_of_mem e hx1, hx2, hx3, hx4,
              lt_trans hc.2 hx5⟩
        · rw [if_neg hc]
          rcases ih w u with h | ⟨x, hx1, hx2, hx3, hx4, hx5⟩
          · exact Or.inl h
          · exact Or.inr ⟨x, List.mem_cons_of_mem e hx1, hx2, hx3, hx4, hx5⟩

/-- First-wins characterization: when the final running maximum `M` strictly
exceeds the initial one, the final url is the url of the *first* element that
passes the codec test and carries width exactly `M`. -/
theorem selectGo_find_first (fmts : List FormatElem) (w : Int)
    (u : Option PyVal) (M : Int) (e : FormatElem)
    (hM : (selectGo fmts w u).1 = M) (hlt : w < M)
    (hfind : List.find? (isBest M) fmts = some e) :
    (selectGo fmts w u).2 = e.url := by
  induction fmts generalizing w u with
  | nil =>
    simp only [selectGo] at hM
    omega
  | cons x rest ih =>
    by_cases hp : isBest M x = true
    · rw [List.find?_cons_of_pos _ hp] at hfind
      have hex : x = e := by
        injection hfind
      subst hex
      have hp2 : qual x = true ∧ x.width = some (PyVal.vint M) := by
        simpa [isBest] using hp
      have hq : qual x = true := hp2.1
      have hwx : x.width = some (PyVal.vint M) := hp2.2
      simp only [selectGo, hwx] at hM ⊢
      rw [if_pos ⟨hq, hlt⟩] at hM ⊢
      have hst := selectGo_stable rest M x.url hM
      rw [hst]
    · rw [List.find?_cons_of_neg _ hp] at hfind
      rcases hwx : x.width with - | v
      · simp only [selectGo, hwx] at hM ⊢
        exact ih w u hM hlt hfind
      · rcases v with s | n
        · simp only [selectGo, hwx] at hM ⊢
          exact ih w u hM hlt hfind
        · simp only [selectGo, hwx] at hM ⊢
          by_cases hc : qual x = true ∧ w < n
          · rw [if_pos hc] at hM ⊢
            have hne : n ≠ M := by
              intro hcon
              subst hcon
              refine hp ?_
              simp [isBest, hc.1, hwx]
            have hle : n ≤ (selectGo rest n x.url).1 :=
              selectGo_fst_ge rest n x.url
            exact ih n x.url hM (by omega) hfind
          · rw [if_neg hc] at hM ⊢
            exact ih w u hM hlt hfind

/-- On inputs whose widths are integers (when present), the effectful loop
never raises and agrees with the pure mirror `selectGo`. -/
theorem loop_eq_selectGo (fmts : List FormatElem) (w : Int) (u : Option PyVal)
    (h : ∀ x ∈ fmts, intWidth x = true) :
    parse_results_loop fmts (PyVal.vint w) u =
      Except.ok (selectGo fmts w u).2 := by
  induction fmts generalizing w u with
  | nil => rfl
  | cons e rest ih =>
    have he : intWidth e = true := h e (List.mem_cons_self e rest)
    have hrest : ∀ x ∈ rest, intWidth x = true :=
      fun x hx => h x (List.mem_cons_of_mem e hx)
    by_cases hq : qual e = true
    · rcases hw : e.width with - | v
      · simp only [parse_results_loop, selectGo, hw, if_pos hq]
        exact ih w u hrest
      · rcases v with s | n
        · rw [intWidth, hw] at he
          cases he
        · simp only [parse_results_loop, selectGo, hw, if_pos hq, pyInt, pyGt]
          by_cases hlt : w < n
          · rw [if_pos (decide_eq_true hlt), if_pos ⟨hq, hlt⟩]
            exact ih n e.url hrest
          · rw [if_neg (by simpa using hlt), if_neg (fun hcon => hlt hcon.2)]
            exact ih w u hrest
    · rcases hw : e.width with - | v
      · simp only [parse_results_loop, selectGo, hw, if_neg hq]
        exact ih w u hrest
      · rcases v with s | n
        · rw [intWidth, hw] at he
          cases he
        · simp only [parse_results_loop, selectGo, hw, if_neg hq]
          rw [if_neg (fun hcon => hq hcon.1)]
          exact ih w u hrest

/-- Whatever the effectful loop returns, it is either the url it started with
or the url field of some element that passed the codec test. -/
theorem loop_url_sound (fmts : List FormatElem) (wv : PyVal)
    (u r : Option PyVal) (h : parse_results_loop fmts wv u = Except.ok r) :
    r = u ∨ ∃ e ∈ fmts, qual e = true ∧ r = e.url := by
  induction fmts generalizing wv u with
  | nil =>
    simp only [parse_results_loop] at h
    injection h with h2
    exact Or.inl h2.symm
  | cons e rest ih =>
    by_cases hq : qual e = true
    · rcases hw : e.width with - | v
      · simp only [parse_results_loop, hw, if_pos hq] at h
        rcases ih wv u h with h2 | ⟨x, hx1, hx2, hx3⟩
        · exact Or.inl h2
        · exact Or.inr ⟨x, List.mem_cons_of_mem e hx1, hx2, hx3⟩
      · simp only [parse_results_loop, hw, if_pos hq] at h
        rcases hpi : pyInt v with ev | n
        · simp only [hpi] at h
          cases h
        · simp only [hpi] at h
          rcases hpg : pyGt n wv with ev | b
          · simp only [hpg] at h
            cases h
          · simp only [hpg] at h
            rcases b with - | -
            · simp at h
              rcases ih wv u h with h2 | ⟨x, hx1, hx2, hx3⟩
              · exact Or.inl h2
              · exact Or.inr ⟨x, List.mem_cons_of_mem e hx1, hx2, hx3⟩
            · simp at h
              rcases ih v e.url h with h2 | ⟨x, hx1, hx2, hx3⟩
              · exact Or.inr ⟨e, List.mem_cons_self e rest, hq, h2⟩
              · exact Or.inr ⟨x, List.mem_cons_of_mem e hx1, hx2, hx3⟩
    · simp only [parse_results_loop, if_neg hq] at h
      rcases ih wv u h with h2 | ⟨x, hx1, hx2, hx3⟩
      · exact Or.inl h2
      · exact Or.inr ⟨x, List.mem_cons_of_mem e hx1, hx2, hx3⟩

/-! The claims. -/

/-- C1 counterexample: on the spec's own example — two qualifying candidates
both of width 720 with urls `X` then `Y` in that order — the selector returns
`X`, not `Y`: the strict `>` comparison against the running maximum means a
later candidate of *equal* width never displaces the incumbent. -/
theorem c1_tie_counterexample :
    parse_results (mkRes tieFmts) = Except.ok (some (PyVal.vstr "X")) ∧
      parse_results (mkRes tieFmts) ≠ Except.ok (some (PyVal.vstr "Y")) := by
  constructor
  · rfl
  · decide

/-- C1 (amended): when two or more qualifying candidates share the equal
maximum width `M` (positive, integer widths), the candidate appearing *first*
in the input ordering among those attaining `M` is selected and its url is
returned. -/
theorem c1_tie_first_wins (r : YdlResult) (fmts : List FormatElem)
    (M : Int) (e : FormatElem) (hf : r.formats = some fmts)
    (hint : ∀ x ∈ fmts, intWidth x = true) (hpos : 0 < M)
    (hmax : ∀ x ∈ fmts, qual x = true →
      ∀ n, x.width = some (PyVal.vint n) → n ≤ M)
    (hfind : List.find? (isBest M) fmts = some e) :
    parse_results r = Except.ok e.url := by
  have hb : isBest M e = true := List.find?_some hfind
  have hb2 : qual e = true ∧ e.width = some (PyVal.vint M) := by
    simpa [isBest] using hb
  have hmem : e ∈ fmts := List.mem_of_find?_eq_some hfind
  have hMle : M ≤ (selectGo fmts 0 none).1 :=
    selectGo_fst_ge_elem fmts 0 none e M hmem hb2.1 hb2.2
  have hfst : (selectGo fmts 0 none).1 = M := by
    rcases selectGo_cases fmts 0 none with h | ⟨x, hx1, hx2, hx3, hx4, hx5⟩
    · rw [h] at hMle
      omega
    · have := hmax x hx1 hx2 _ hx3
      omega
  simp only [parse_results, hf]
  rw [loop_eq_selectGo fmts 0 none hint,
    selectGo_find_first fmts 0 none M e hfst (by omega) hfind]

/-- C1 witness: the amended tie-break at the spec's concrete example — both
candidates at width 720, urls `X` then `Y` — selects `X`. -/
theorem c1_tie_first_wins_witness :
    (mkRes tieFmts).formats = some tieFmts ∧
      (∀ x ∈ tieFmts, intWidth x = true) ∧ (0 : Int) < 720 ∧
      (∀ x ∈ tieFmts, qual x = true →
        ∀ n, x.width = some (PyVal.vint n) → n ≤ 720) ∧
      List.find? (isBest 720) tieFmts
        = some (mkFmt (some "mp4a") (some "avc1") (some 720) (some "X")) ∧
      parse_results (mkRes tieFmts) = Except.ok (some (PyVal.vstr "X")) :=
  ⟨rfl, by decide, by decide, by simp [tieFmts, mkFmt, qual], by decide,
    c1_tie_first_wins (mkRes tieFmts) tieFmts 720
      (mkFmt (some "mp4a") (some "avc1") (some 720) (some "X")) rfl
      (by decide) (by decide) (by simp [tieFmts, mkFmt, qual]) (by decide)⟩

/-- C2 counterexample: a format list whose only entry passes the codec test,
has url `A` and *width 0*.  The claim (which explicitly includes a width of 0)
requires the selector to return `A`, the url of the maximal-width candidate;
the code returns no url, because `0 > 0` fails against the running maximum
initialised to 0. -/
theorem c2_max_width_counterexample :
    parse_results (mkRes zeroWidthFmts) = Except.ok none ∧
      parse_results (mkRes zeroWidthFmts) ≠
        Except.ok (some (PyVal.vstr "A")) := by
  constructor
  · rfl
  · decide

/-- C2 (amended): for every format list with integer-or-absent widths
containing at least one codec-passing candidate with a present *strictly
positive* width — a width of 0 never qualifies — the selector returns the
url field of a codec-passing candidate whose width is maximal among the
candidates. -/
theorem c2_max_width_selected (r : YdlResult) (fmts : List FormatElem)
    (hf : r.formats = some fmts) (hint : ∀ x ∈ fmts, intWidth x = true)
    (hex : ∃ e ∈ fmts, qual e = true ∧
      ∃ n, e.width = some (PyVal.vint n) ∧ 0 < n) :
    ∃ e ∈ fmts, qual e = true ∧
      (∃ m, e.width = some (PyVal.vint m) ∧
        ∀ x ∈ fmts, qual x = true →
          ∀ n, x.width = some (PyVal.vint n) → n ≤ m) ∧
      parse_results r = Except.ok e.url := by
  obtain ⟨e0, he0, hq0, n0, hw0, hn0⟩ := hex
  have hle : n0 ≤ (selectGo fmts 0 none).1 :=
    selectGo_fst_ge_elem fmts 0 none e0 n0 he0 hq0 hw0
  rcases selectGo_cases fmts 0 none with h | ⟨x, hx1, hx2, hx3, hx4, hx5⟩
  · rw [h] at hle
    omega
  · refine ⟨x, hx1, hx2, ⟨(selectGo fmts 0 none).1, hx3, ?_⟩, ?_⟩
    · intro y hy hqy n hwn
      exact selectGo_fst_ge_elem fmts 0 none y n hy hqy hwn
    · simp only [parse_results, hf]
      rw [loop_eq_selectGo fmts 0 none hint, hx4]

/-- C2 witness: on the spec's worked example (an audio-only 1080 entry, then
qualifying candidates of widths 480 and 720), some maximal-width candidate's
url is returned — and indeed the value is `C`. -/
theorem c2_max_width_selected_witness :
    (mkRes [mkFmt (some "aac") (some "none") (some 1080) (some "A"),
        mkFmt (some "aac") (some "h264") (some 480) (some "B"),
        mkFmt (some "aac") (some "h264") (some 720) (some "C")]).formats =
      some [mkFmt (some "aac") (some "none") (some 1080) (some "A"),
        mkFmt (some "aac") (some "h264") (some 480) (some "B"),
        mkFmt (some "aac") (some "h264") (some 720) (some "C")] ∧
    (∃ e ∈ [mkFmt (some "aac") (some "none") (some 1080) (some "A"),
        mkFmt (some "aac") (some "h264") (some 480) (some "B"),
        mkFmt (some "aac") (some "h264") (some 720) (some "C")],
      qual e = true ∧
        (∃ m, e.width = some (PyVal.vint m) ∧
          ∀ x ∈ [mkFmt (some "aac") (some "none") (some 1080) (some "A"),
            mkFmt (some "aac") (some "h264") (some 480) (some "B"),
            mkFmt (some "aac") (some "h264") (some 720) (some "C")],
            qual x = true →
              ∀ n, x.width = some (PyVal.vint n) → n ≤ m) ∧
        parse_results (mkRes
          [mkFmt (some "aac") (some "none") (some 1080) (some "A"),
           mkFmt (some "aac") (some "h264") (some 480) (some "B"),
           mkFmt (some "aac") (some "h264") (some 720) (some "C")]) =
          Except.ok e.url) ∧
    parse_results (mkRes
      [mkFmt (some "aac") (some "none") (some 1080) (some "A"),
       mkFmt (some "aac") (some "h264") (some 480) (some "B"),
       mkFmt (some "aac") (some "h264") (some 720) (some "C")]) =
      Except.ok (some (PyVal.vstr "C")) :=
  ⟨rfl,
    c2_max_width_selected _ _ rfl (by decide)
      ⟨mkFmt (some "aac") (some "h264") (some 480) (some "B"),
        by decide, by decide, 480, rfl, by decide⟩,
    rfl⟩

/-- C3 counterexample: an entry with *no* `acodec` key and *no* `vcodec` key
at all (only a width and a url) supplies the returned url, because Python
`None != 'none'` lets an absent codec key pass the test — contradicting the
claim that an entry missing `acodec` or `vcodec` can never supply the url. -/
theorem c3_candidate_counterexample :
    noCodecFmts =
      [⟨none, none, some (PyVal.vint 5), some (PyVal.vstr "U")⟩] ∧
      parse_results (mkRes noCodecFmts) =
        Except.ok (some (PyVal.vstr "U")) :=
  ⟨rfl, rfl⟩

/-- C3 (amended): a non-None url returned by the selector always comes from
an entry of the format list whose `acodec` and `vcodec` values are not the
string `"none"` — but the keys need not be present, an absent key passes the
test — and whose `url` key is present with exactly the returned value. -/
theorem c3_url_from_passing_entry (r : YdlResult) (fmts : List FormatElem)
    (v : PyVal) (hf : r.formats = some fmts)
    (hok : parse_results r = Except.ok (some v)) :
    ∃ e ∈ fmts, e.acodec ≠ some (PyVal.vstr "none") ∧
      e.vcodec ≠ some (PyVal.vstr "none") ∧ e.url = some v := by
  simp only [parse_results, hf] at hok
  rcases loop_url_sound fmts (PyVal.vint 0) none (some v) hok with
    h | ⟨e, he, hq, hu⟩
  · cases h
  · have hq2 : e.acodec ≠ some (PyVal.vstr "none") ∧
        e.vcodec ≠ some (PyVal.vstr "none") := by
      simpa [qual] using hq
    exact ⟨e, he, hq2.1, hq2.2, hu.symm⟩

/-- C3 witness: at the concrete one-entry list with absent codec keys, the
returned url `U` does come from an entry whose codec values are not the
string `"none"` and whose url key holds `U`. -/
theorem c3_url_from_passing_entry_witness :
    (mkRes noCodecFmts).formats = some noCodecFmts ∧
      parse_results (mkRes noCodecFmts) =
        Except.ok (some (PyVal.vstr "U")) ∧
      ∃ e ∈ noCodecFmts, e.acodec ≠ some (PyVal.vstr "none") ∧
        e.vcodec ≠ some (PyVal.vstr "none") ∧
        e.url = some (PyVal.vstr "U") :=
  ⟨rfl, rfl,
    c3_url_from_passing_entry (mkRes noCodecFmts) noCodecFmts
      (PyVal.vstr "U") rfl rfl⟩

/-- C8: on integer-or-absent widths, a non-None url always comes from a
codec-passing entry whose integer width is strictly greater than 0; and when
every codec-passing entry has width absent or at most 0, the selector
returns no url at all. -/
theorem c8_selected_width_positive (r : YdlResult) (fmts : List FormatElem)
    (hf : r.formats = some fmts) (hint : ∀ x ∈ fmts, intWidth x = true) :
    (∀ v, parse_results r = Except.ok (some v) →
      ∃ e ∈ fmts, qual e = true ∧ e.url = some v ∧
        ∃ n, e.width = some (PyVal.vint n) ∧ 0 < n) ∧
    ((∀ x ∈ fmts, qual x = true →
        ∀ n, x.width = some (PyVal.vint n) → n ≤ 0) →
      parse_results r = Except.ok none) := by
  have hpr : parse_results r = Except.ok (selectGo fmts 0 none).2 := by
    simp only [parse_results, hf]
    exact loop_eq_selectGo fmts 0 none hint
  constructor
  · intro v hok
    rw [hpr] at hok
    injection hok with h2
    rcases selectGo_cases fmts 0 none with h | ⟨x, hx1, hx2, hx3, hx4, hx5⟩
    · rw [h] at h2
      cases h2
    · exact ⟨x, hx1, hx2, hx4.symm.trans h2,
        (selectGo fmts 0 none).1, hx3, hx5⟩
  · intro hall
    rw [hpr]
    rcases selectGo_cases fmts 0 none with h | ⟨x, hx1, hx2, hx3, hx4, hx5⟩
    · rw [h]
    · have := hall x hx1 hx2 _ hx3
      omega

/-- C8 witness: a sole codec-passing candidate with url `A` and width 0 is
never selected — the selector returns no url. -/
theorem c8_selected_width_positive_witness :
    (mkRes zeroWidthFmts).formats = some zeroWidthFmts ∧
      (∀ x ∈ zeroWidthFmts, intWidth x = true) ∧
      parse_results (mkRes zeroWidthFmts) = Except.ok none :=
  ⟨rfl, by decide,
    (c8_selected_width_positive (mkRes zeroWidthFmts) zeroWidthFmts rfl
        (by decide)).2
      (by simp [zeroWidthFmts, mkFmt, qual])⟩

/-- C9: there is a format list — an earlier fully qualifying candidate
(codecs passing, url `A` present, positive width 5) followed by a
codec-passing entry of strictly larger width 10 that *lacks* a url key —
on which the selector returns no URL: the running best url is overwritten
by the absent value. -/
theorem c9_url_overwritten_by_absent :
    shadowFmts = [mkFmt (some "mp4a") (some "avc1") (some 5) (some "A"),
      mkFmt (some "mp4a") (some "avc1") (some 10) none] ∧
      parse_results (mkRes shadowFmts) = Except.ok none :=
  ⟨rfl, rfl⟩

/-- `url_is_valid` in logical form: some registered handler other than the
`Generic` fallback is suitable for the url and working. -/
theorem url_is_valid_iff (ies : List Extractor) (url : String) :
    url_is_valid ies url = true ↔
      ∃ ie ∈ ies, ie.name ≠ "Generic" ∧ ie.suitable url = true ∧
        ie.working = true := by
  simp [url_is_valid, and_assoc]

/-- C4 counterexample: a run on a supported url in which extraction raises
(with debug disabled) produces *empty* standard output — not the sentinel
token the claim requires — together with exit status 1: the `except` clause
only calls `sys.exit(1)`, it never prints. -/
theorem c4_exception_counterexample :
    raiseEnv.extract_info = Except.error "network error" ∧
      extract_url raiseEnv "http://a" false false = ("", 1) ∧
      ("" : String) ≠ errorToken := by
  refine ⟨rfl, rfl, ?_⟩
  decide

/-- C4 (amended): for every extraction run on a supported url in which the
external extractor raises, the program (with debug disabled) prints nothing
at all and exits with the non-zero status 1. -/
theorem c4_exception_silent_exit (env : YdlEnv) (url : String) (e : String)
    (he : env.extract_info = Except.error e)
    (hv : url_is_valid env.ies url = true) :
    extract_url env url false false = ("", 1) := by
  simp [extract_url, hv, he]

/-- C4 witness: the silent non-zero exit at a concrete raising environment. -/
theorem c4_exception_silent_exit_witness :
    raiseEnv.extract_info = Except.error "network error" ∧
      url_is_valid raiseEnv.ies "http://a" = true ∧
      extract_url raiseEnv "http://a" false false = ("", 1) :=
  ⟨rfl, rfl,
    c4_exception_silent_exit raiseEnv "http://a" "network error" rfl rfl⟩

/-- C5 counterexample: extraction succeeds but resolves no playable URL (the
format list is empty); the claim requires a non-zero exit on this path, yet
the program prints the sentinel and exits with status 0 — the `else` branch
on line 176 never calls `sys.exit`. -/
theorem c5_exit_counterexample :
    emptyFmtsEnv.extract_info = Except.ok (mkRes []) ∧
      extract_url emptyFmtsEnv "u" false false = (errorToken, 0) :=
  ⟨rfl, rfl⟩

/-- C5 (amended): the exit status is 0 exactly on the extract-mode runs in
which extraction and result parsing both succeed — including the
no-playable-URL outcome, which prints the sentinel and still exits 0; check
mode (both outcomes), an unsupported URL, and a raising extractor all exit
non-zero. -/
theorem c5_exit_zero_iff (env : YdlEnv) (url : String) (check debug : Bool) :
    (extract_url env url check debug).2 = 0 ↔
      check = false ∧ url_is_valid env.ies url = true ∧
        ∃ r u, env.extract_info = Except.ok r ∧
          parse_results r = Except.ok u := by
  cases check with
  | true => simp [extract_url]
  | false =>
    cases hv : url_is_valid env.ies url with
    | false => simp [extract_url, hv]
    | true =>
      rcases hei : env.extract_info with e | r
      · simp [extract_url, hv, hei]
      · rcases hpr : parse_results r with e2 | u
        · simp [extract_url, hv, hei, hpr]
        · rcases u with - | v
          · simp [extract_url, hv, hei, hpr]
          · simp [extract_url, hv, hei, hpr]

/-- C6 counterexample: a successful extraction whose result has *no*
`duration_string` still prints a `duration=` line (rendering Python `None`),
where the claim requires the line to be omitted entirely. -/
theorem c6_duration_line_counterexample :
    noDurRes.duration_string = none ∧
      extract_url noDurEnv "u" false false =
        ("title=T\nid=I\nmoreinfos=W\n" ++ "duration=" ++ "None\nurl=U\n",
          0) :=
  ⟨rfl, rfl⟩

/-- C6 (amended): in the extract-mode success report the `image-url=` line is
printed exactly when a thumbnail is present, but the `duration=` line is
printed unconditionally — when the duration string is absent it shows the
Python rendering `None` instead of being omitted. -/
theorem c6_report_lines (env : YdlEnv) (url : String) (r : YdlResult)
    (v : PyVal) (hv : url_is_valid env.ies url = true)
    (hei : env.extract_info = Except.ok r)
    (hpr : parse_results r = Except.ok (some v)) :
    extract_url env url false false =
      ("title=" ++ pyShow r.title ++ "\n"
        ++ "id=" ++ pyShow r.id ++ "\n"
        ++ "moreinfos=" ++ pyShow r.webpage_url ++ "\n"
        ++ "duration=" ++ pyShow r.duration_string ++ "\n"
        ++ "url=" ++ pyShow (some v) ++ "\n"
        ++ (if r.thumbnail ≠ none then
              "image-url=" ++ pyShow r.thumbnail ++ "\n"
            else ""), 0) := by
  simp [extract_url, hv, hei, hpr]

/-- C6 witness: with a thumbnail present and a duration string present, the
report carries all six lines verbatim. -/
theorem c6_report_lines_witness :
    url_is_valid fullEnv.ies "u" = true ∧
      fullEnv.extract_info = Except.ok fullRes ∧
      parse_results fullRes = Except.ok (some (PyVal.vstr "V")) ∧
      extract_url fullEnv "u" false false =
        ("title=T2\nid=I2\nmoreinfos=W2\nduration=3:25\nurl=V\nimage-url=TH\n",
          0) :=
  ⟨rfl, rfl, rfl, by
    have h := c6_report_lines fullEnv "u" fullRes (PyVal.vstr "V") rfl rfl rfl
    exact h⟩

/-- C7: in check mode the program prints exactly `TRUE` when some handler
other than the `Generic` fallback is suitable for the url and working,
prints exactly `FALSE` otherwise, exits with non-zero status 1 in both
cases, and performs no extraction: the outcome is independent of the
extraction result and of the debug dump text. -/
theorem c7_check_mode (ies : List Extractor) (ei ei2 : Except String YdlResult)
    (d d2 : String) (url : String) (debug : Bool) :
    ((extract_url ⟨ies, ei, d⟩ url true debug).1 = "TRUE" ↔
      ∃ ie ∈ ies, ie.name ≠ "Generic" ∧ ie.suitable url = true ∧
        ie.working = true) ∧
    ((extract_url ⟨ies, ei, d⟩ url true debug).1 = "TRUE" ∨
      (extract_url ⟨ies, ei, d⟩ url true debug).1 = "FALSE") ∧
    (extract_url ⟨ies, ei, d⟩ url true debug).2 = 1 ∧
    extract_url ⟨ies, ei, d⟩ url true debug =
      extract_url ⟨ies, ei2, d2⟩ url true debug := by
  have hrun : ∀ (x : Except String YdlResult) (y : String),
      extract_url ⟨ies, x, y⟩ url true debug =
        ((if url_is_valid ies url = true then "TRUE" else "FALSE"), 1) := by
    intro x y
    simp [extract_url]
  have hiff := url_is_valid_iff ies url
  rw [hrun ei d, hrun ei2 d2]
  cases hv : url_is_valid ies url with
  | true =>
    rw [hv] at hiff
    rw [if_pos (Eq.refl true)]
    exact ⟨⟨fun _ => hiff.mp rfl, fun _ => rfl⟩, Or.inl rfl, rfl, rfl⟩
  | false =>
    rw [hv] at hiff
    rw [if_neg (by decide : ¬((false : Bool) = true))]
    exact ⟨⟨fun h => absurd h (by decide),
      fun h => absurd (hiff.mpr h) (by decide)⟩, Or.inr rfl, rfl, rfl⟩

/-- C10: the selector is total only when the `formats` key is present: on a
dictionary lacking it (for example a playlist wrapper) it takes the error
branch (the `KeyError` lookup failure) rather than returning a no-URL
result; and when `formats` is present and every `width` value is an integer
or absent, the error branch is unreachable. -/
theorem c10_formats_key_total (r : YdlResult) :
    (r.formats = none → ∃ msg, parse_results r = Except.error msg) ∧
    (∀ fmts, r.formats = some fmts → (∀ x ∈ fmts, intWidth x = true) →
      ∃ u, parse_results r = Except.ok u) := by
  constructor
  · intro h
    refine ⟨"KeyError: formats", ?_⟩
    simp [parse_results, h]
  · intro fmts hf hint
    refine ⟨(selectGo fmts 0 none).2, ?_⟩
    simp only [parse_results, hf]
    exact loop_eq_selectGo fmts 0 none hint

/-- C10 witness: a wrapper with no `formats` key reaches the error branch; a
concrete integer-widthed format list cannot. -/
theorem c10_formats_key_total_witness :
    noFormatsRes.formats = none ∧
      (∃ msg, parse_results noFormatsRes = Except.error msg) ∧
      (mkRes shadowFmts).formats = some shadowFmts ∧
      (∀ x ∈ shadowFmts, intWidth x = true) ∧
      ∃ u, parse_results (mkRes shadowFmts) = Except.ok u :=
  ⟨rfl, (c10_formats_key_total noFormatsRes).1 rfl, rfl, by decide,
    (c10_formats_key_total (mkRes shadowFmts)).2 shadowFmts rfl (by decide)⟩
